import Mathlib

/-!
Shallow embedding of `src/target_watcher.py`, a scheduled batch checker that
fetches a feed of target records, filters them against a monitored-host list,
deduplicates them against a persisted "seen" set, formats a report and
notifies chat-webhook / email sinks.

Python strings are modelled as Lean `String`s and the Python `str` methods
used by the source (`lower`, `upper`, `strip`, `startswith`, `endswith`,
slicing, `join`) are given list-of-characters definitions so that every
definition evaluates inside the kernel.  Python's insertion-ordered `dict`
keyed by request identifier is modelled as a `List String` of its keys in
insertion order.  Python's `None` is modelled by `Option`.
-/

namespace TargetWatcher

/-- Model of Python `str.lower()` (ASCII case folding, which is all the
program's data exercises). -/
def pyLower (s : String) : String := String.mk (s.data.map Char.toLower)

/-- Model of Python `str.upper()`. -/
def pyUpper (s : String) : String := String.mk (s.data.map Char.toUpper)

/-- Model of Python `str.strip()`: drop whitespace from both ends. -/
def pyStrip (s : String) : String :=
  String.mk (((s.data.dropWhile Char.isWhitespace).reverse.dropWhile Char.isWhitespace).reverse)

/-- Model of Python `s.startswith(p)`. -/
def pyStartsWith (s p : String) : Bool := p.data.isPrefixOf s.data

/-- Model of Python `s.endswith(p)`. -/
def pyEndsWith (s p : String) : Bool := p.data.reverse.isPrefixOf s.data.reverse

/-- Model of Python slicing `s[n:]`. -/
def pyDrop (s : String) (n : Nat) : String := String.mk (s.data.drop n)

/-- Model of Python `sep.join(parts)`. -/
def pyJoin (sep : String) : List String → String
  | [] => ""
  | [s] => s
  | s :: rest => s ++ sep ++ pyJoin sep rest

/-- Model of Python `a or b` for an optional string `a`: `b` when `a` is
`None` or the empty string (falsy), otherwise the string held by `a`. -/
def pyOrElse (a : Option String) (b : String) : String :=
  match a with
  | some s => if s = "" then b else s
  | none => b

/-- Model of Python truthiness of `t.get(k)` for a string field: present and
non-empty. -/
def pyTruthy (a : Option String) : Bool :=
  match a with
  | some s => s ≠ ""
  | none => false

/-- Model of a Python f-string interpolation of an optional field: `None`
renders as the four characters `None`. -/
def pyShow (a : Option String) : String :=
  match a with
  | some s => s
  | none => "None"

/-- One record of the feed's `targets` list (a JSON object; entries of the
feed that are not objects are skipped by `main`'s `isinstance` guard and are
therefore not modelled).  Every field the program reads is an optional
string. -/
structure Record where
  host : Option String
  path : Option String
  rtype : Option String
  method : Option String
  port : Option String
  request_id : Option String
deriving DecidableEq

/-- Source line 248, the derived fallback identifier
`f"{host}:{t.get('path','')}:{t.get('type','')}:{t.get('method','')}"`. -/
def derivedId (t : Record) : String :=
  pyShow t.host ++ ":" ++ t.path.getD "" ++ ":" ++ t.rtype.getD "" ++ ":" ++ t.method.getD ""

/-- Source line 248: `rid = t.get("request_id") or f"{host}:..."`. -/
def recordId (t : Record) : String :=
  pyOrElse t.request_id (derivedId t)

/-- Source `normalize_host` (lines 84-88): lowercase, strip, drop one
leading `www.` label. -/
def normalize_host (h : String) : String :=
  let h := pyStrip (pyLower h)
  if pyStartsWith h "www." then pyDrop h 4 else h

/-- Source `host_matches` (lines 91-98): the loop with early `return True`
is the list `any`. -/
def host_matches (monitored : List String) (host : String) : Bool :=
  let host := normalize_host host
  monitored.any (fun m =>
    let m := normalize_host m
    host == m || pyEndsWith host ("." ++ m))

/-- Source line 249, the guard `if host and host_matches(MONITORED_HOSTS, host)`. -/
def hitCond (monitored : List String) (t : Record) : Bool :=
  pyTruthy t.host && host_matches monitored (t.host.getD "")

/-- The body of `main`'s per-record loop (lines 244-252) acting on the
accumulator `(hits, seen)`: the seen dict is its key list in insertion
order, and `seen[rid] = True` appends a fresh key at the end. -/
def processStep (monitored : List String) (acc : List Record × List String) (t : Record) :
    List Record × List String :=
  let rid := recordId t
  if hitCond monitored t then
    if rid ∈ acc.2 then acc
    else (acc.1 ++ [t], acc.2 ++ [rid])
  else acc

/-- Source lines 242-252: one pass over the fetched targets, collecting the
hit records and inserting their identifiers into the seen dict. -/
def processFeed (monitored : List String) (targets : List Record) (seen : List String) :
    List Record × List String :=
  targets.foldl (processStep monitored) ([], seen)

/-- Source `save_state` eviction (lines 74-77): when the seen dict holds
more than 50000 keys, `list(seen.keys())[:10000]` (the 10000
oldest-inserted keys) are deleted before the file is written. -/
def evictSeen (seen : List String) : List String :=
  if seen.length > 50000 then seen.drop 10000 else seen

/-- Source `save_state` (lines 70-78) in stateful mode, as the content of
`seen_request_ids` written to the state file. -/
def save_state (seen : List String) : List String := evictSeen seen

/-- Result of attempting to read and parse the state file: `none` when the
file does not exist, `some none` when reading or JSON parsing raises, and
`some (some keys)` when it parses to a state object whose
`seen_request_ids` mapping has `keys` in insertion order. -/
abbrev StateFile := Option (Option (List String))

/-- Source `load_state` (lines 59-68): stateless mode and every failing
file fall back to the empty seen dict. -/
def load_state (useState : Bool) (file : StateFile) : List String :=
  if !useState then []
  else
    match file with
    | some (some keys) => keys
    | some none => []
    | none => []

/-- One stateful fetch-filter-persist cycle over an already-fetched feed,
starting from the persisted seen keys: source lines 238-262 minus the
notification calls.  Returns the hits and the seen keys persisted for the
next invocation (`save_state` runs only when there are hits; otherwise the
state file is left as it was). -/
def cycleStateful (monitored : List String) (feed : List Record) (persisted : List String) :
    List Record × List String :=
  if (processFeed monitored feed persisted).1 ≠ [] then
    ((processFeed monitored feed persisted).1, save_state (processFeed monitored feed persisted).2)
  else
    ((processFeed monitored feed persisted).1, persisted)

/-- Per-host aggregate built by `summarize_hits_by_host`: the defaultdict
value `{"count": 0, "examples": []}` after its updates. -/
structure HostGroup where
  count : Nat
  examples : List String
deriving DecidableEq

/-- Source line 141: the grouping key `normalize_host(t.get("host", ""))`. -/
def hostKeyOf (t : Record) : String := normalize_host (t.host.getD "")

/-- Source lines 142-144: the example string
`((t.get("method") or t.get("type") or "").upper() + " " + (t.get("path") or "")).strip()`. -/
def exampleOf (t : Record) : String :=
  pyStrip (pyUpper (pyOrElse t.method (pyOrElse t.rtype "")) ++ " " ++ pyOrElse t.path "")

/-- Source lines 145-147: bump the group's count and append the example when
it is non-empty and the group holds fewer than `SLACK_EXAMPLES_PER_HOST`
examples. -/
def updateGroup (cap : Nat) (ex : String) (g : HostGroup) : HostGroup :=
  { count := g.count + 1,
    examples := if ex ≠ "" ∧ g.examples.length < cap then g.examples ++ [ex] else g.examples }

/-- One defaultdict update `groups[host]...` on the insertion-ordered
association list of groups: update in place when the key exists, append a
freshly defaulted entry otherwise. -/
def insertHit (cap : Nat) (h ex : String) : List (String × HostGroup) → List (String × HostGroup)
  | [] => [(h, updateGroup cap ex ⟨0, []⟩)]
  | (k, g) :: rest =>
    if k = h then (k, updateGroup cap ex g) :: rest
    else (k, g) :: insertHit cap h ex rest

/-- Source `summarize_hits_by_host` (lines 138-148), with
`SLACK_EXAMPLES_PER_HOST` as the parameter `cap`; the defaultdict is its
insertion-ordered association list. -/
def summarize_hits_by_host (cap : Nat) (hits : List Record) : List (String × HostGroup) :=
  hits.foldl (fun gs t => insertHit cap (hostKeyOf t) (exampleOf t) gs) []

/-- Stable insertion step of the model of
`sorted(groups.items(), key=lambda kv: kv[1]["count"], reverse=True)`: the
new item goes after every already-placed item of greater or equal count,
which is exactly the stable descending order Python's stable sort
produces. -/
def insertDesc (p : String × HostGroup) : List (String × HostGroup) → List (String × HostGroup)
  | [] => [p]
  | q :: rest => if p.2.count ≤ q.2.count then q :: insertDesc p rest else p :: q :: rest

/-- Model of source line 160, Python's stable `sorted` descending by
count. -/
def sortDesc (l : List (String × HostGroup)) : List (String × HostGroup) :=
  l.foldl (fun acc p => insertDesc p acc) []

/-- Source lines 165-170: one bullet line of the compact report. -/
def groupLine (host : String) (g : HostGroup) : String :=
  let exStr := pyJoin ", " g.examples
  if exStr ≠ "" then
    "• *" ++ host ++ "* — " ++ toString g.count ++ " hits (e.g. " ++ exStr ++ ")"
  else
    "• *" ++ host ++ "* — " ++ toString g.count ++ " hits"

/-- Source `format_compact_slack` (lines 151-175) as the list `lines` it
joins: two header lines, one bullet per shown group (the loop shows
`SLACK_MAX_HOSTS = maxHosts` groups at most), and the `…and N more hosts.`
line when groups were truncated. -/
def format_compact_lines (maxHosts cap : Nat) (title url : String) (hits : List Record) :
    List String :=
  let groups := summarize_hits_by_host cap hits
  let total := (groups.map (fun p => p.2.count)).sum
  let uniqueHosts := groups.length
  let shownItems := (sortDesc groups).take maxHosts
  [":rotating_light: Oh noes, we might be under attack soon! :rotating_light:",
    "*" ++ title ++ ":* " ++ toString total ++ " new hits / " ++ toString uniqueHosts
      ++ " hosts\n" ++ url]
  ++ shownItems.map (fun p => groupLine p.1 p.2)
  ++ (if shownItems.length < uniqueHosts then
        ["…and " ++ toString (uniqueHosts - shownItems.length) ++ " more hosts."]
      else [])

/-- Source `format_compact_slack` result: `"\n".join(lines)`. -/
def format_compact_slack (maxHosts cap : Nat) (title url : String) (hits : List Record) : String :=
  pyJoin "\n" (format_compact_lines maxHosts cap title url hits)

/-- Source `format_hits` (lines 124-135): the verbose report, one line per
hit in feed order. -/
def format_hits (hits : List Record) : String :=
  pyJoin "\n" (hits.map (fun t =>
    "- " ++ pyShow t.host ++ "  " ++ pyOrElse t.method (t.rtype.getD "") ++ " "
      ++ pyOrElse t.path "" ++ " (port " ++ t.port.getD "" ++ ")  request_id="
      ++ t.request_id.getD ""))

/-- The configuration the program reads from the environment (lines
24-53). -/
structure Config where
  url : String
  monitored : List String
  useState : Bool
  slackWebhook : String
  slackSummaryOnly : Bool
  slackExamplesPerHost : Nat
  slackMaxHosts : Nat
  slackSuppressEmpty : Bool
  slackTitle : String
  smtpHost : String
  emailFrom : String
  emailTo : String
deriving DecidableEq

/-- Network calls the program can make: the feed GET, a webhook POST, an
SMTP session. -/
inductive Event where
  | fetchGet
  | slackPost
  | emailSend
deriving DecidableEq

/-- Source line 203: the email sink fires only when
`SMTP_HOST and EMAIL_FROM and EMAIL_TO` are all configured. -/
def emailConfigured (cfg : Config) : Bool :=
  cfg.smtpHost ≠ "" && cfg.emailFrom ≠ "" && cfg.emailTo ≠ ""

/-- Outcome of one transport attempt (webhook POST with
`raise_for_status`, or SMTP session), as its oracle bit says. -/
def attemptPost (transportOk : Bool) : Except String Unit :=
  if transportOk then Except.ok () else Except.error "transport failed"

/-- Source `notify_slack` (lines 181-199): skipped without a webhook or on
an empty hit list with suppress-empty on; otherwise one POST whose failure
is caught by `except Exception` and only printed, so the function always
returns normally. -/
def notify_slack (cfg : Config) (transportOk : Bool) (hits : List Record) :
    List Event × Except String Unit :=
  if cfg.slackWebhook = "" then ([], Except.ok ())
  else if hits = [] ∧ cfg.slackSuppressEmpty then ([], Except.ok ())
  else
    ([Event.slackPost],
      match attemptPost transportOk with
      | Except.ok _ => Except.ok ()
      | Except.error _ => Except.ok ())

set_option linter.unusedVariables false in
/-- Source `notify_email` (lines 202-227): skipped silently without full
configuration; otherwise one SMTP session whose failure is caught and only
printed (the hit list only feeds the message body, which the event model
does not carry). -/
def notify_email (cfg : Config) (transportOk : Bool) (hits : List Record) :
    List Event × Except String Unit :=
  if !emailConfigured cfg then ([], Except.ok ())
  else
    ([Event.emailSend],
      match attemptPost transportOk with
      | Except.ok _ => Except.ok ()
      | Except.error _ => Except.ok ())

/-- Source `main` (lines 233-262) with its I/O abstracted to oracles: the
state file's read result, the fetch result, and one transport bit per sink.
Returns the network calls made and the process exit code (`sys.exit(2)` on
missing hosts; a fetch error re-raises out of `fetch_targets` — after a
best-effort webhook alert, lines 110-120 — and the `__main__` handler maps
it to exit 1; otherwise `main` returns and the process exits 0). -/
def runMain (cfg : Config) (file : StateFile) (fetchResult : Except String (List Record))
    (slackOk emailOk : Bool) : List Event × Nat :=
  if cfg.monitored = [] then ([], 2)
  else
    match fetchResult with
    | Except.error _ =>
      ((if cfg.slackWebhook ≠ "" then [Event.fetchGet, Event.slackPost] else [Event.fetchGet]), 1)
    | Except.ok targets =>
      if (processFeed cfg.monitored targets (load_state cfg.useState file)).1 ≠ [] then
        (Event.fetchGet ::
          ((notify_slack cfg slackOk
              (processFeed cfg.monitored targets (load_state cfg.useState file)).1).1
            ++ (notify_email cfg emailOk
              (processFeed cfg.monitored targets (load_state cfg.useState file)).1).1),
          0)
      else
        (Event.fetchGet :: (if !cfg.slackSuppressEmpty then (notify_slack cfg slackOk []).1 else []),
          0)

/-- The whole process: the module-level check on lines 24-27 exits with
code 2 before anything else when `TARGETS_URL` is unset, then `main`
runs. -/
def runProgram (cfg : Config) (file : StateFile) (fetchResult : Except String (List Record))
    (slackOk emailOk : Bool) : List Event × Nat :=
  if cfg.url = "" then ([], 2)
  else runMain cfg file fetchResult slackOk emailOk

/-!
Basic behaviour of the per-record loop.
-/

theorem processStep_not_hit (m : List String) (acc : List Record × List String) (t : Record)
    (hc : hitCond m t = false) : processStep m acc t = acc := by
  simp [processStep, hc]

theorem processStep_seen (m : List String) (acc : List Record × List String) (t : Record)
    (hc : hitCond m t = true) (hmem : recordId t ∈ acc.2) : processStep m acc t = acc := by
  simp [processStep, hc, hmem]

theorem processStep_fresh (m : List String) (hits : List Record) (seen : List String) (t : Record)
    (hc : hitCond m t = true) (hmem : recordId t ∉ seen) :
    processStep m (hits, seen) t = (hits ++ [t], seen ++ [recordId t]) := by
  simp [processStep, hc, hmem]

/-- The hits accumulator is write-only: folding from `(hits, seen)` appends
to `hits` exactly what folding from `([], seen)` produces. -/
theorem foldl_processStep_decomp (m : List String) :
    ∀ (feed : List Record) (hits : List Record) (seen : List String),
    List.foldl (processStep m) (hits, seen) feed
      = (hits ++ (List.foldl (processStep m) ([], seen) feed).1,
         (List.foldl (processStep m) ([], seen) feed).2)
  | [], hits, seen => by simp
  | t :: rest, hits, seen => by
    by_cases hc : hitCond m t = true
    · by_cases hmem : recordId t ∈ seen
      · rw [List.foldl_cons, List.foldl_cons, processStep_seen m (hits, seen) t hc hmem,
          processStep_seen m ([], seen) t hc hmem]
        exact foldl_processStep_decomp m rest hits seen
      · rw [List.foldl_cons, List.foldl_cons, processStep_fresh m hits seen t hc hmem,
          processStep_fresh m [] seen t hc hmem, List.nil_append,
          foldl_processStep_decomp m rest (hits ++ [t]) (seen ++ [recordId t]),
          foldl_processStep_decomp m rest [t] (seen ++ [recordId t])]
        simp [List.append_assoc]
    · rw [List.foldl_cons, List.foldl_cons,
        processStep_not_hit m (hits, seen) t (by simpa using hc),
        processStep_not_hit m ([], seen) t (by simpa using hc)]
      exact foldl_processStep_decomp m rest hits seen

/-- The seen dict only grows during the loop. -/
theorem foldl_processStep_seen_mono (m : List String) :
    ∀ (feed : List Record) (hits : List Record) (seen : List String),
    ∃ l, (List.foldl (processStep m) (hits, seen) feed).2 = seen ++ l
  | [], hits, seen => ⟨[], by simp⟩
  | t :: rest, hits, seen => by
    by_cases hc : hitCond m t = true
    · by_cases hmem : recordId t ∈ seen
      · rw [List.foldl_cons, processStep_seen m (hits, seen) t hc hmem]
        exact foldl_processStep_seen_mono m rest hits seen
      · rw [List.foldl_cons, processStep_fresh m hits seen t hc hmem]
        obtain ⟨l, hl⟩ := foldl_processStep_seen_mono m rest (hits ++ [t]) (seen ++ [recordId t])
        exact ⟨[recordId t] ++ l, by rw [hl, List.append_assoc]⟩
    · rw [List.foldl_cons, processStep_not_hit m (hits, seen) t (by simpa using hc)]
      exact foldl_processStep_seen_mono m rest hits seen

theorem foldl_processStep_seen_mem (m : List String) (feed : List Record) (hits : List Record)
    (seen : List String) (x : String) (hx : x ∈ seen) :
    x ∈ (List.foldl (processStep m) (hits, seen) feed).2 := by
  obtain ⟨l, hl⟩ := foldl_processStep_seen_mono m feed hits seen
  rw [hl]
  exact List.mem_append_left l hx

/-- Running the loop over a seen dict that already holds everything a first
run over the same feed ever inserted produces no hits and no insertions. -/
theorem foldl_processStep_complete (m : List String) :
    ∀ (feed : List Record) (seen0 big : List String),
    (∀ x, x ∈ (List.foldl (processStep m) ([], seen0) feed).2 → x ∈ big) →
    List.foldl (processStep m) ([], big) feed = ([], big)
  | [], _, _, _ => by simp
  | t :: rest, seen0, big, hbig => by
    by_cases hc : hitCond m t = true
    · by_cases hmem : recordId t ∈ seen0
      · have hsub : ∀ x, x ∈ (List.foldl (processStep m) ([], seen0) rest).2 → x ∈ big := by
          intro x hx
          apply hbig
          rw [List.foldl_cons, processStep_seen m ([], seen0) t hc hmem]
          exact hx
        have hridbig : recordId t ∈ big :=
          hsub _ (foldl_processStep_seen_mem m rest [] seen0 _ hmem)
        rw [List.foldl_cons, processStep_seen m ([], big) t hc hridbig]
        exact foldl_processStep_complete m rest seen0 big hsub
      · have hsub : ∀ x, x ∈ (List.foldl (processStep m) ([], seen0 ++ [recordId t]) rest).2 →
            x ∈ big := by
          intro x hx
          apply hbig
          rw [List.foldl_cons, processStep_fresh m [] seen0 t hc hmem, List.nil_append,
            foldl_processStep_decomp m rest [t] (seen0 ++ [recordId t])]
          exact hx
        have hridbig : recordId t ∈ big := by
          apply hsub
          apply foldl_processStep_seen_mem
          exact List.mem_append_right seen0 (by simp)
        rw [List.foldl_cons, processStep_seen m ([], big) t hc hridbig]
        exact foldl_processStep_complete m rest (seen0 ++ [recordId t]) big hsub
    · have hsub : ∀ x, x ∈ (List.foldl (processStep m) ([], seen0) rest).2 → x ∈ big := by
        intro x hx
        apply hbig
        rw [List.foldl_cons, processStep_not_hit m ([], seen0) t (by simpa using hc)]
        exact hx
      rw [List.foldl_cons, processStep_not_hit m ([], big) t (by simpa using hc)]
      exact foldl_processStep_complete m rest seen0 big hsub

/-- A second pass over the same feed, starting from the first pass's final
seen dict, reports nothing and changes nothing. -/
theorem processFeed_idem (m : List String) (feed : List Record) (seen0 : List String) :
    processFeed m feed ((processFeed m feed seen0).2) = ([], (processFeed m feed seen0).2) :=
  foldl_processStep_complete m feed seen0 _ (fun _ hx => hx)

theorem cycleStateful_hits (m : List String) (feed : List Record) (p : List String)
    (hits : List Record) (ids : List String) (h : processFeed m feed p = (hits, ids))
    (hne : hits ≠ []) : cycleStateful m feed p = (hits, save_state ids) := by
  unfold cycleStateful
  rw [h]
  simp [hne]

theorem save_state_evicts (ids : List String) (h : 50000 < ids.length) :
    save_state ids = ids.drop 10000 := by
  unfold save_state evictSeen
  rw [if_pos h]

theorem cycleStateful_fst (m : List String) (feed : List Record) (p : List String) :
    (cycleStateful m feed p).1 = (processFeed m feed p).1 := by
  unfold cycleStateful
  by_cases h : (processFeed m feed p).1 ≠ [] <;> simp [h]

/-- C3. For every host string and monitored list, `host_matches` returns
true iff some monitored entry's normalization equals the normalized host or
is a proper dot-suffix of it; in particular, with `["example.com"]`
monitored, `example.com`, `api.example.com` and `www.example.com` match
while `notexample.com` does not. -/
theorem c3_host_matches_spec :
    (∀ (M : List String) (h : String),
      host_matches M h = true ↔
        ∃ m ∈ M, normalize_host h = normalize_host m ∨
          pyEndsWith (normalize_host h) ("." ++ normalize_host m) = true)
    ∧ host_matches ["example.com"] "example.com" = true
    ∧ host_matches ["example.com"] "api.example.com" = true
    ∧ host_matches ["example.com"] "www.example.com" = true
    ∧ host_matches ["example.com"] "notexample.com" = false := by
  refine ⟨?_, by decide, by decide, by decide, by decide⟩
  intro M h
  simp [host_matches, List.any_eq_true, Bool.or_eq_true, beq_iff_eq]

/-!
C1: replay idempotence in stateful mode, and where eviction breaks it.
-/

/-- C1 (amended). In stateful mode, a cycle over a feed followed by a second
cycle over the identical feed yields zero hits on the second run, provided
the Seen Set at the end of the first run holds at most 50000 identifiers,
so that save-time eviction removes nothing. -/
theorem c1_stateful_replay_zero_hits (monitored : List String) (feed : List Record)
    (persisted : List String)
    (hlen : (processFeed monitored feed persisted).2.length ≤ 50000) :
    (cycleStateful monitored feed ((cycleStateful monitored feed persisted).2)).1 = [] := by
  rw [cycleStateful_fst]
  by_cases hh : (processFeed monitored feed persisted).1 = []
  · have h2 : (cycleStateful monitored feed persisted).2 = persisted := by
      unfold cycleStateful
      simp [hh]
    rw [h2]
    exact hh
  · have h2 : (cycleStateful monitored feed persisted).2
        = evictSeen ((processFeed monitored feed persisted).2) := by
      unfold cycleStateful save_state
      simp [hh]
    have hev : evictSeen ((processFeed monitored feed persisted).2)
        = (processFeed monitored feed persisted).2 := by
      unfold evictSeen
      rw [if_neg (by omega)]
    rw [h2, hev]
    exact congrArg Prod.fst (processFeed_idem monitored feed persisted)

/-- Feed of one matching record used to instantiate C1's theorem. -/
def c1feed : List Record :=
  [⟨some "example.com", none, none, none, none, some "r1"⟩]

/-- Witness for C1: the hypothesis holds and the second run over `c1feed`
reports nothing. -/
theorem c1_stateful_replay_zero_hits_witness :
    (processFeed ["example.com"] c1feed []).2.length ≤ 50000
    ∧ (cycleStateful ["example.com"] c1feed ((cycleStateful ["example.com"] c1feed []).2)).1
        = [] :=
  ⟨by decide, c1_stateful_replay_zero_hits ["example.com"] c1feed [] (by decide)⟩

/-- A string of `n` letters `a`: concrete distinct request identifiers. -/
def aStr (n : Nat) : String := String.mk (List.replicate n 'a')

theorem aStr_inj : Function.Injective aStr := by
  intro m n h
  have hlen := congrArg (fun s => s.data.length) h
  simpa [aStr] using hlen

theorem aStr_ne_empty (n : Nat) : aStr (n + 1) ≠ "" := by
  intro h
  have hd := congrArg String.data h
  have hnil : ("" : String).data = [] := rfl
  rw [hnil] at hd
  simp [aStr] at hd

/-- A matching record carrying the fresh explicit identifier `aStr (i+1)`. -/
def mkFresh (i : Nat) : Record :=
  ⟨some "example.com", none, none, none, none, some (aStr (i + 1))⟩

theorem recordId_mkFresh (i : Nat) : recordId (mkFresh i) = aStr (i + 1) := by
  simp [recordId, mkFresh, pyOrElse, aStr_ne_empty i]

theorem hitCond_mkFresh (i : Nat) : hitCond ["example.com"] (mkFresh i) = true := by
  show pyTruthy (some "example.com")
      && host_matches ["example.com"] ((some "example.com").getD "") = true
  decide

/-- A feed of 50001 distinct matching records: enough to push the first
run's Seen Set past the eviction threshold. -/
def bigFeed : List Record := (List.range 50001).map mkFresh

theorem map_recordId_bigFeed :
    bigFeed.map recordId = (List.range 50001).map (fun i => aStr (i + 1)) := by
  unfold bigFeed
  rw [List.map_map]
  apply List.map_congr_left
  intro i _
  exact recordId_mkFresh i

theorem nodup_bigFeed_ids : (bigFeed.map recordId).Nodup := by
  rw [map_recordId_bigFeed]
  exact (List.nodup_range 50001).map (fun i j h => by
    have := aStr_inj h
    omega)

/-- Over a feed of fresh, matching, pairwise-distinct identifiers the loop
reports every record and appends every identifier. -/
theorem foldl_processStep_all_fresh (m : List String) :
    ∀ (feed : List Record) (hits : List Record) (seen : List String),
    (∀ t ∈ feed, hitCond m t = true) →
    (feed.map recordId).Nodup →
    (∀ t ∈ feed, recordId t ∉ seen) →
    List.foldl (processStep m) (hits, seen) feed = (hits ++ feed, seen ++ feed.map recordId)
  | [], hits, seen, _, _, _ => by simp
  | t :: rest, hits, seen, hall, hnd, hfresh => by
    have hndc : recordId t ∉ rest.map recordId ∧ (rest.map recordId).Nodup :=
      List.nodup_cons.mp (by simpa using hnd)
    rw [List.foldl_cons, processStep_fresh m hits seen t (hall t (by simp)) (hfresh t (by simp)),
      foldl_processStep_all_fresh m rest (hits ++ [t]) (seen ++ [recordId t])
        (fun t' ht' => hall t' (by simp [ht']))
        hndc.2
        (fun t' ht' => by
          intro hmem
          rcases List.mem_append.mp hmem with h1 | h2
          · exact hfresh t' (by simp [ht']) h1
          · have heq : recordId t' = recordId t := by simpa using h2
            exact hndc.1 (heq ▸ List.mem_map_of_mem recordId ht'))]
    simp [List.append_assoc]

/-- A feed whose first record is a fresh hit yields a non-empty hit list. -/
theorem processFeed_head_hit (m : List String) (t : Record) (rest : List Record)
    (seen : List String) (hc : hitCond m t = true) (hmem : recordId t ∉ seen) :
    (processFeed m (t :: rest) seen).1 ≠ [] := by
  unfold processFeed
  rw [List.foldl_cons, processStep_fresh m [] seen t hc hmem, List.nil_append,
    foldl_processStep_decomp]
  simp

theorem bigFeed_cons :
    bigFeed = mkFresh 0 :: (List.range 50000).map (fun i => mkFresh (i + 1)) := by
  unfold bigFeed
  rw [show (50001 : Nat) = 50000 + 1 from rfl, List.range_succ_eq_map, List.map_cons,
    List.map_map]
  rfl

set_option maxRecDepth 4000 in
/-- Counterexample to C1 as stated: over `bigFeed` (50001 fresh matching
records) the first run's save evicts the 10000 oldest identifiers — all of
them first-run hits — so the second run over the identical feed reports
hits again. -/
theorem c1_counterexample :
    (cycleStateful ["example.com"] bigFeed ((cycleStateful ["example.com"] bigFeed []).2)).1
      ≠ [] := by
  have hall : ∀ t ∈ bigFeed, hitCond ["example.com"] t = true := by
    intro t ht
    obtain ⟨i, _, rfl⟩ := List.mem_map.mp ht
    exact hitCond_mkFresh i
  have hnd : (bigFeed.map recordId).Nodup := nodup_bigFeed_ids
  have h1 : processFeed ["example.com"] bigFeed [] = (bigFeed, bigFeed.map recordId) := by
    unfold processFeed
    rw [foldl_processStep_all_fresh ["example.com"] bigFeed [] [] hall hnd (by simp)]
    simp
  have hlen : (bigFeed.map recordId).length = 50001 := by
    rw [map_recordId_bigFeed]
    simp
  have hbigne : bigFeed ≠ [] := by
    rw [bigFeed_cons]
    simp
  have hcyc1 : (cycleStateful ["example.com"] bigFeed []).2
      = (bigFeed.map recordId).drop 10000 := by
    rw [cycleStateful_hits ["example.com"] bigFeed [] bigFeed (bigFeed.map recordId) h1 hbigne,
      save_state_evicts (bigFeed.map recordId) (by rw [hlen]; norm_num)]
  have hid0 : recordId (mkFresh 0) = aStr 1 := recordId_mkFresh 0
  have hnotin : aStr 1 ∉ (bigFeed.map recordId).drop 10000 := by
    intro hmem
    have hsplit : (bigFeed.map recordId).take 10000 ++ (bigFeed.map recordId).drop 10000
        = bigFeed.map recordId := List.take_append_drop 10000 (bigFeed.map recordId)
    have hnd2 : ((bigFeed.map recordId).take 10000
        ++ (bigFeed.map recordId).drop 10000).Nodup := by
      rw [hsplit]
      exact hnd
    have hdisj := (List.nodup_append.mp hnd2).2.2
    have hhead : aStr 1 ∈ (bigFeed.map recordId).take 10000 := by
      rw [bigFeed_cons, List.map_cons, hid0,
        show (10000 : Nat) = 9999 + 1 from rfl, List.take_succ_cons]
      exact List.mem_cons_self _ _
    exact hdisj hhead hmem
  rw [hcyc1, cycleStateful_fst]
  have hmain := processFeed_head_hit ["example.com"] (mkFresh 0)
    ((List.range 50000).map (fun i => mkFresh (i + 1)))
    ((bigFeed.map recordId).drop 10000) (hitCond_mkFresh 0) (by rw [hid0]; exact hnotin)
  rw [← bigFeed_cons] at hmain
  exact hmain

/-!
C2: eviction at save time.
-/

/-- C2 (amended). Save-time eviction: a set of more than 50000 identifiers
is persisted minus its 10000 oldest-inserted entries (the first 10000 in
mapping iteration order); a set of 50000 or fewer is written unchanged; and
a save whose set grew from at most 50000 identifiers by at most 10000
insertions persists at most 50000 identifiers. -/
theorem c2_eviction_bound :
    (∀ seen : List String, 50000 < seen.length → save_state seen = seen.drop 10000)
    ∧ (∀ seen : List String, seen.length ≤ 50000 → save_state seen = seen)
    ∧ (∀ prev fresh : List String, prev.length ≤ 50000 → fresh.length ≤ 10000 →
        (save_state (prev ++ fresh)).length ≤ 50000) := by
  refine ⟨fun seen h => save_state_evicts seen h, fun seen h => ?_, fun prev fresh h1 h2 => ?_⟩
  · unfold save_state evictSeen
    rw [if_neg (by omega)]
  · have hap := List.length_append prev fresh
    unfold save_state evictSeen
    by_cases hc : (prev ++ fresh).length > 50000
    · rw [if_pos hc, List.length_drop]
      omega
    · rw [if_neg hc]
      omega

/-- Witness for C2's amended theorem at a small concrete save. -/
theorem c2_eviction_bound_witness :
    (["a"] : List String).length ≤ 50000 ∧ (["b"] : List String).length ≤ 10000
    ∧ (save_state (["a"] ++ ["b"])).length ≤ 50000 :=
  ⟨by decide, by decide, c2_eviction_bound.2.2 ["a"] ["b"] (by decide) (by decide)⟩

/-- A seen set of 70000 distinct identifiers, as one cycle can build by
inserting 70000 fresh hits before its save. -/
def hugeSeen : List String := (List.range 70000).map (fun i => aStr (i + 1))

/-- Counterexample to C2 as stated: called on a set of 70000 identifiers,
save persists 60000 of them — the persisted set exceeds 50000, so it is not
bounded by roughly 50000 minus the evicted batch. -/
theorem c2_counterexample :
    hugeSeen.Nodup ∧ hugeSeen.length = 70000
    ∧ (save_state hugeSeen).length = 60000 ∧ 50000 < (save_state hugeSeen).length := by
  have hlen : hugeSeen.length = 70000 := by
    unfold hugeSeen
    simp
  have hsave : (save_state hugeSeen).length = 60000 := by
    rw [save_state_evicts hugeSeen (by rw [hlen]; norm_num), List.length_drop, hlen]
  refine ⟨?_, hlen, hsave, by rw [hsave]; norm_num⟩
  unfold hugeSeen
  exact (List.nodup_range 70000).map (fun i j h => by
    have := aStr_inj h
    omega)

/-!
C6: a failing state file loads as the empty seen set.
-/

/-- C6. In stateful mode a state file that does not exist or fails to read
or parse loads as the empty Seen Set, and the cycle over that load is the
cycle over the empty set — the failure is never surfaced. -/
theorem c6_state_load_failure_empty (file : StateFile) (monitored : List String)
    (feed : List Record) (hfail : file = none ∨ file = some none) :
    load_state true file = []
    ∧ processFeed monitored feed (load_state true file) = processFeed monitored feed []
    ∧ cycleStateful monitored feed (load_state true file) = cycleStateful monitored feed [] := by
  have hl : load_state true file = [] := by
    rcases hfail with rfl | rfl <;> rfl
  exact ⟨hl, by rw [hl], by rw [hl]⟩

/-- Witness for C6 at the concrete failing file `some none` (the file
exists and raises on read or parse). -/
theorem c6_state_load_failure_empty_witness :
    ((some none : StateFile) = none ∨ (some none : StateFile) = some none)
    ∧ load_state true (some none) = []
    ∧ processFeed ["kela.fi"] [] (load_state true (some none)) = processFeed ["kela.fi"] [] []
    ∧ cycleStateful ["kela.fi"] [] (load_state true (some none))
        = cycleStateful ["kela.fi"] [] [] :=
  ⟨Or.inr rfl, c6_state_load_failure_empty (some none) ["kela.fi"] [] (Or.inr rfl)⟩

/-!
C8: configuration errors exit with code 2 before any network call.
-/

/-- C8. With an empty monitored list, or with the required feed URL unset,
the program exits with code 2 having made no network call at all. -/
theorem c8_config_error_exits_2 (cfg : Config) (file : StateFile)
    (fetchResult : Except String (List Record)) (slackOk emailOk : Bool)
    (hcfg : cfg.monitored = [] ∨ cfg.url = "") :
    runProgram cfg file fetchResult slackOk emailOk = ([], 2) := by
  unfold runProgram runMain
  rcases hcfg with hm | hu
  · by_cases hu : cfg.url = ""
    · rw [if_pos hu]
    · rw [if_neg hu, if_pos hm]
  · rw [if_pos hu]

/-- A configuration with a feed URL but no monitored hosts. -/
def cfgNoHosts : Config :=
  ⟨"http://feed.example/targets.json", [], true, "", true, 2, 10, true, "Target watcher",
    "", "", ""⟩

/-- Witness for C8: the empty monitored list exits 2 with no events. -/
theorem c8_config_error_exits_2_witness :
    (cfgNoHosts.monitored = [] ∨ cfgNoHosts.url = "")
    ∧ runProgram cfgNoHosts none (Except.ok []) true true = ([], 2) :=
  ⟨Or.inl rfl, c8_config_error_exits_2 cfgNoHosts none (Except.ok []) true true (Or.inl rfl)⟩

/-!
C9: an empty-string request_id falls back to the derived identifier.
-/

/-- C9. A record whose `request_id` is present but empty gets the derived
identifier, exactly like a record with no `request_id` at all: any record
with the same host, path, type and method and no `request_id` has the same
identifier. -/
theorem c9_empty_request_id_falls_back (t : Record) (hrid : t.request_id = some "") :
    recordId t = derivedId t
    ∧ ∀ t' : Record, t'.request_id = none → t'.host = t.host → t'.path = t.path →
        t'.rtype = t.rtype → t'.method = t.method → recordId t' = recordId t := by
  have h1 : recordId t = derivedId t := by
    unfold recordId
    rw [hrid]
    simp [pyOrElse]
  refine ⟨h1, fun t' h0 hh hp ht hm => ?_⟩
  have h2 : recordId t' = derivedId t' := by
    unfold recordId
    rw [h0]
    simp [pyOrElse]
  rw [h1, h2]
  unfold derivedId
  rw [hh, hp, ht, hm]

/-- A record with an explicitly empty request identifier. -/
def c9rec : Record := ⟨some "example.com", some "/login", some "phish", some "get", none, some ""⟩

/-- Witness for C9 at a concrete record. -/
theorem c9_empty_request_id_falls_back_witness :
    c9rec.request_id = some ""
    ∧ recordId c9rec = derivedId c9rec
    ∧ ∀ t' : Record, t'.request_id = none → t'.host = c9rec.host → t'.path = c9rec.path →
        t'.rtype = c9rec.rtype → t'.method = c9rec.method → recordId t' = recordId c9rec :=
  ⟨rfl, c9_empty_request_id_falls_back c9rec rfl⟩

/-!
C4: records without an explicit request_id deduplicate through the derived
identifier; within one cycle the reported hits carry pairwise distinct
identifiers.
-/

/-- The identifiers of the reported hits are pairwise distinct and all
present in the final seen dict. -/
theorem foldl_processStep_hits_nodup (m : List String) :
    ∀ (feed : List Record) (hits : List Record) (seen : List String),
    (hits.map recordId).Nodup →
    (∀ x ∈ hits.map recordId, x ∈ seen) →
    ((List.foldl (processStep m) (hits, seen) feed).1.map recordId).Nodup
    ∧ (∀ x ∈ (List.foldl (processStep m) (hits, seen) feed).1.map recordId,
        x ∈ (List.foldl (processStep m) (hits, seen) feed).2)
  | [], hits, seen, hnd, hsub => ⟨by simpa using hnd, by simpa using hsub⟩
  | t :: rest, hits, seen, hnd, hsub => by
    by_cases hc : hitCond m t = true
    · by_cases hmem : recordId t ∈ seen
      · rw [List.foldl_cons, processStep_seen m (hits, seen) t hc hmem]
        exact foldl_processStep_hits_nodup m rest hits seen hnd hsub
      · rw [List.foldl_cons, processStep_fresh m hits seen t hc hmem]
        apply foldl_processStep_hits_nodup m rest (hits ++ [t]) (seen ++ [recordId t])
        · rw [List.map_append]
          refine List.Nodup.append hnd (by simp) ?_
          intro x hx hxr
          have hxt : x = recordId t := by simpa using hxr
          exact hmem (hxt ▸ hsub x hx)
        · intro x hx
          rw [List.map_append] at hx
          rcases List.mem_append.mp hx with hx1 | hx2
          · exact List.mem_append_left _ (hsub x hx1)
          · have hxt : x = recordId t := by simpa using hx2
            exact hxt ▸ List.mem_append_right seen (by simp)
    · rw [List.foldl_cons, processStep_not_hit m (hits, seen) t (by simpa using hc)]
      exact foldl_processStep_hits_nodup m rest hits seen hnd hsub

/-- C4. Two records with identical host, path, type and method and no
explicit request_id derive the same identifier, and in any one cycle at
most one hit carrying that identifier is reported. -/
theorem c4_derived_id_dedup (monitored : List String) (feed : List Record) (seen : List String)
    (t1 t2 : Record) (hr1 : t1.request_id = none) (hr2 : t2.request_id = none)
    (hh : t1.host = t2.host) (hp : t1.path = t2.path) (ht : t1.rtype = t2.rtype)
    (hm : t1.method = t2.method) :
    recordId t1 = recordId t2
    ∧ (processFeed monitored feed seen).1.countP (fun t => recordId t == recordId t1) ≤ 1 := by
  constructor
  · have e1 : recordId t1 = derivedId t1 := by
      unfold recordId
      rw [hr1]
      simp [pyOrElse]
    have e2 : recordId t2 = derivedId t2 := by
      unfold recordId
      rw [hr2]
      simp [pyOrElse]
    rw [e1, e2]
    unfold derivedId
    rw [hh, hp, ht, hm]
  · have hnd := (foldl_processStep_hits_nodup monitored feed [] seen (by simp) (by simp)).1
    have hcount : (processFeed monitored feed seen).1.countP (fun t => recordId t == recordId t1)
        = ((processFeed monitored feed seen).1.map recordId).count (recordId t1) := by
      rw [List.count, List.countP_map]
      rfl
    rw [hcount]
    exact List.nodup_iff_count_le_one.mp hnd _

/-- One of two records identical up to the port and lacking request_id. -/
def c4recA : Record := ⟨some "example.com", some "/x", some "phish", some "get", none, none⟩

/-- The other record of the C4 witness pair. -/
def c4recB : Record := ⟨some "example.com", some "/x", some "phish", some "get", some "443", none⟩

/-- Witness for C4 at a concrete pair of records inside a concrete feed. -/
theorem c4_derived_id_dedup_witness :
    c4recA.request_id = none ∧ c4recB.request_id = none
    ∧ c4recA.host = c4recB.host ∧ c4recA.path = c4recB.path
    ∧ c4recA.rtype = c4recB.rtype ∧ c4recA.method = c4recB.method
    ∧ (recordId c4recA = recordId c4recB
       ∧ (processFeed ["example.com"] [c4recA, c4recB] []).1.countP
           (fun t => recordId t == recordId c4recA) ≤ 1) :=
  ⟨rfl, rfl, rfl, rfl, rfl, rfl,
    c4_derived_id_dedup ["example.com"] [c4recA, c4recB] [] c4recA c4recB
      rfl rfl rfl rfl rfl rfl⟩

/-!
C7: sink independence.
-/

theorem notify_slack_events_const (cfg : Config) (a b : Bool) (hits : List Record) :
    (notify_slack cfg a hits).1 = (notify_slack cfg b hits).1 := by
  unfold notify_slack
  by_cases h1 : cfg.slackWebhook = ""
  · rw [if_pos h1, if_pos h1]
  · rw [if_neg h1, if_neg h1]
    by_cases h2 : hits = [] ∧ cfg.slackSuppressEmpty
    · rw [if_pos h2, if_pos h2]
    · rw [if_neg h2, if_neg h2]

/-- Reduction of `runMain` on a successful fetch. -/
theorem runMain_ok (cfg : Config) (file : StateFile) (targets : List Record)
    (slackOk emailOk : Bool) :
    runMain cfg file (Except.ok targets) slackOk emailOk
      = if cfg.monitored = [] then ([], 2)
        else if (processFeed cfg.monitored targets (load_state cfg.useState file)).1 ≠ [] then
          (Event.fetchGet ::
            ((notify_slack cfg slackOk
                (processFeed cfg.monitored targets (load_state cfg.useState file)).1).1
              ++ (notify_email cfg emailOk
                (processFeed cfg.monitored targets (load_state cfg.useState file)).1).1),
            0)
        else
          (Event.fetchGet ::
            (if !cfg.slackSuppressEmpty then (notify_slack cfg slackOk []).1 else []), 0) :=
  rfl

/-- C7. A chat-webhook transport failure changes nothing observable about
the rest of the run: the run with a failing webhook equals the run with a
succeeding one (same events, same exit code), the email sink is still
attempted afterwards whenever it is configured and there are hits, and
neither sink ever lets a transport failure escape. -/
theorem c7_sink_independence (cfg : Config) (file : StateFile)
    (fetchResult : Except String (List Record)) (emailOk : Bool) :
    runMain cfg file fetchResult false emailOk = runMain cfg file fetchResult true emailOk
    ∧ (∀ hits : List Record, hits ≠ [] → emailConfigured cfg = true →
        (notify_email cfg emailOk hits).1 = [Event.emailSend]
        ∧ Event.emailSend ∈ (notify_slack cfg false hits).1 ++ (notify_email cfg emailOk hits).1)
    ∧ (∀ (hits : List Record) (ok : Bool),
        (notify_slack cfg ok hits).2 = Except.ok ()
        ∧ (notify_email cfg ok hits).2 = Except.ok ()) := by
  refine ⟨?_, ?_, ?_⟩
  · cases fetchResult with
    | error e => rfl
    | ok targets =>
      rw [runMain_ok, runMain_ok]
      by_cases hm : cfg.monitored = []
      · rw [if_pos hm, if_pos hm]
      · rw [if_neg hm, if_neg hm]
        by_cases hh : (processFeed cfg.monitored targets (load_state cfg.useState file)).1 ≠ []
        · rw [if_pos hh, if_pos hh, notify_slack_events_const cfg false true]
        · rw [if_neg hh, if_neg hh, notify_slack_events_const cfg false true]
  · intro hits hne hec
    have hev : (notify_email cfg emailOk hits).1 = [Event.emailSend] := by
      unfold notify_email
      rw [hec]
      rfl
    exact ⟨hev, by rw [hev]; exact List.mem_append_right _ (by simp)⟩
  · intro hits ok
    constructor
    · unfold notify_slack
      by_cases h1 : cfg.slackWebhook = ""
      · rw [if_pos h1]
      · rw [if_neg h1]
        by_cases h2 : hits = [] ∧ cfg.slackSuppressEmpty
        · rw [if_pos h2]
        · rw [if_neg h2]
          cases ok <;> rfl
    · unfold notify_email
      cases hec : emailConfigured cfg
      · rfl
      · cases ok <;> rfl

/-- A fully configured instance for the C7 witness. -/
def cfgFull : Config :=
  ⟨"http://feed.example/targets.json", ["example.com"], false, "http://hooks.example/x", true,
    2, 10, true, "Target watcher", "smtp.example", "from@example.org", "to@example.org"⟩

/-- Witness for C7: at a concrete configuration the failing-webhook run
equals the succeeding-webhook run. -/
theorem c7_sink_independence_witness :
    runMain cfgFull none (Except.ok []) false true = runMain cfgFull none (Except.ok []) true true :=
  (c7_sink_independence cfgFull none (Except.ok []) true).1

/-!
C10: derived identifiers use the raw host, matching uses the normalized
host.
-/

/-- C10. Two records lacking request_id, equal in path, type and method,
whose raw host strings differ while normalizing identically (letter case or
a leading `www.` label), derive distinct identifiers, and a cycle over the
two records with an empty Seen Set reports both as hits. -/
theorem c10_raw_host_distinct_ids (monitored : List String) (t1 t2 : Record) (h1 h2 : String)
    (hh1 : t1.host = some h1) (hh2 : t2.host = some h2) (hne : h1 ≠ h2)
    (hnorm : normalize_host h1 = normalize_host h2)
    (hr1 : t1.request_id = none) (hr2 : t2.request_id = none)
    (hp : t1.path = t2.path) (ht : t1.rtype = t2.rtype) (hm : t1.method = t2.method)
    (hne1 : h1 ≠ "") (hne2 : h2 ≠ "")
    (hmatch : host_matches monitored h1 = true) :
    recordId t1 ≠ recordId t2
    ∧ processFeed monitored [t1, t2] [] = ([t1, t2], [recordId t1, recordId t2]) := by
  have e1 : recordId t1 = derivedId t1 := by
    unfold recordId
    rw [hr1]
    simp [pyOrElse]
  have e2 : recordId t2 = derivedId t2 := by
    unfold recordId
    rw [hr2]
    simp [pyOrElse]
  have hid : recordId t1 ≠ recordId t2 := by
    rw [e1, e2]
    unfold derivedId
    rw [hh1, hh2, hp, ht, hm]
    intro heq
    apply hne
    have hd := congrArg String.data heq
    simp only [pyShow, String.data_append, List.append_assoc] at hd
    exact String.ext (List.append_cancel_right hd)
  have hm2 : host_matches monitored h2 = true := by
    unfold host_matches at hmatch ⊢
    rw [← hnorm]
    exact hmatch
  have hc1 : hitCond monitored t1 = true := by
    unfold hitCond
    rw [hh1]
    simp [pyTruthy, hne1, hmatch]
  have hc2 : hitCond monitored t2 = true := by
    unfold hitCond
    rw [hh2]
    simp [pyTruthy, hne2, hm2]
  refine ⟨hid, ?_⟩
  unfold processFeed
  rw [List.foldl_cons, processStep_fresh monitored [] [] t1 hc1 (by simp)]
  simp only [List.nil_append]
  rw [List.foldl_cons,
    processStep_fresh monitored [t1] [recordId t1] t2 hc2
      (by simp only [List.mem_singleton]; exact fun he => hid he.symm),
    List.foldl_nil]
  rfl

/-- First record of the C10 witness pair: capitalized host. -/
def c10recA : Record := ⟨some "Example.com", some "/x", none, some "get", none, none⟩

/-- Second record of the C10 witness pair: lowercase host. -/
def c10recB : Record := ⟨some "example.com", some "/x", none, some "get", none, none⟩

/-- Witness for C10: `Example.com` and `example.com` normalize alike, match
the monitored domain, yet derive distinct identifiers and are both
reported. -/
theorem c10_raw_host_distinct_ids_witness :
    ("Example.com" : String) ≠ "example.com"
    ∧ normalize_host "Example.com" = normalize_host "example.com"
    ∧ host_matches ["example.com"] "Example.com" = true
    ∧ (recordId c10recA ≠ recordId c10recB
       ∧ processFeed ["example.com"] [c10recA, c10recB] []
          = ([c10recA, c10recB], [recordId c10recA, recordId c10recB])) :=
  ⟨by decide, by decide, by decide,
    c10_raw_host_distinct_ids ["example.com"] c10recA c10recB "Example.com" "example.com"
      rfl rfl (by decide) (by decide) rfl rfl rfl rfl rfl (by decide) (by decide) (by decide)⟩

/-!
C5: the grouping and the compact report.
-/

theorem keys_insertHit (cap : Nat) (h ex : String) :
    ∀ gs : List (String × HostGroup),
    (insertHit cap h ex gs).map Prod.fst
      = if h ∈ gs.map Prod.fst then gs.map Prod.fst else gs.map Prod.fst ++ [h]
  | [] => by simp [insertHit]
  | (k, g) :: rest => by
    by_cases hk : k = h
    · subst hk
      simp [insertHit]
    · simp only [insertHit, if_neg hk, List.map_cons]
      rw [keys_insertHit cap h ex rest]
      by_cases hmem : h ∈ rest.map Prod.fst
      · rw [if_pos hmem, if_pos (by simp [hmem])]
      · rw [if_neg hmem, if_neg (by simp [hmem, Ne.symm hk]), List.cons_append]

theorem keys_insertHit_nodup (cap : Nat) (h ex : String) (gs : List (String × HostGroup))
    (hnd : (gs.map Prod.fst).Nodup) : ((insertHit cap h ex gs).map Prod.fst).Nodup := by
  rw [keys_insertHit]
  by_cases hmem : h ∈ gs.map Prod.fst
  · rw [if_pos hmem]
    exact hnd
  · rw [if_neg hmem]
    refine List.Nodup.append hnd (by simp) ?_
    intro x hx hxh
    have hxe : x = h := by simpa using hxh
    exact hmem (hxe ▸ hx)

theorem mem_keys_insertHit (cap : Nat) (h ex x : String) (gs : List (String × HostGroup)) :
    x ∈ (insertHit cap h ex gs).map Prod.fst ↔ x ∈ gs.map Prod.fst ∨ x = h := by
  rw [keys_insertHit]
  by_cases hmem : h ∈ gs.map Prod.fst
  · rw [if_pos hmem]
    constructor
    · exact fun hx => Or.inl hx
    · rintro (hx | rfl)
      · exact hx
      · exact hmem
  · rw [if_neg hmem]
    simp

theorem sum_insertHit (cap : Nat) (h ex : String) :
    ∀ gs : List (String × HostGroup),
    ((insertHit cap h ex gs).map (fun p => p.2.count)).sum
      = ((gs.map (fun p => p.2.count)).sum) + 1
  | [] => by simp [insertHit, updateGroup]
  | (k, g) :: rest => by
    by_cases hk : k = h
    · subst hk
      rw [show insertHit cap k ex ((k, g) :: rest) = (k, updateGroup cap ex g) :: rest from by
        simp [insertHit]]
      simp only [List.map_cons, List.sum_cons, updateGroup]
      omega
    · simp only [insertHit, if_neg hk, List.map_cons, List.sum_cons]
      rw [sum_insertHit cap h ex rest]
      omega

/-- Well-formedness of every group's examples against an ambient pool. -/
def GroupsWF (cap : Nat) (E : List String) (gs : List (String × HostGroup)) : Prop :=
  ∀ p ∈ gs, p.2.examples.length ≤ cap ∧ ∀ e ∈ p.2.examples, e ≠ "" ∧ e ∈ E

theorem updateGroup_examples_wf (cap : Nat) (E : List String) (ex : String) (hex : ex ∈ E)
    (g : HostGroup) (hlen : g.examples.length ≤ cap)
    (hwf : ∀ e ∈ g.examples, e ≠ "" ∧ e ∈ E) :
    (updateGroup cap ex g).examples.length ≤ cap
    ∧ ∀ e ∈ (updateGroup cap ex g).examples, e ≠ "" ∧ e ∈ E := by
  unfold updateGroup
  by_cases hc : ex ≠ "" ∧ g.examples.length < cap
  · rw [if_pos hc]
    constructor
    · rw [List.length_append]
      simp only [List.length_singleton]
      omega
    · intro e he
      rcases List.mem_append.mp he with h1 | h2
      · exact hwf e h1
      · have he2 : e = ex := by simpa using h2
        exact he2 ▸ ⟨hc.1, hex⟩
  · rw [if_neg hc]
    exact ⟨hlen, hwf⟩

theorem groupsWF_insertHit (cap : Nat) (E : List String) (h ex : String) (hex : ex ∈ E) :
    ∀ gs, GroupsWF cap E gs → GroupsWF cap E (insertHit cap h ex gs)
  | [], _ => by
    intro p hp
    have hp' : p = (h, updateGroup cap ex ⟨0, []⟩) := by simpa [insertHit] using hp
    subst hp'
    exact updateGroup_examples_wf cap E ex hex ⟨0, []⟩ (by simp) (by simp)
  | (k, g) :: rest, hwf => by
    intro p hp
    by_cases hk : k = h
    · subst hk
      rw [show insertHit cap k ex ((k, g) :: rest) = (k, updateGroup cap ex g) :: rest from
        by simp [insertHit]] at hp
      rcases List.mem_cons.mp hp with rfl | hmem
      · exact updateGroup_examples_wf cap E ex hex g
          ((hwf (k, g) (by simp)).1) ((hwf (k, g) (by simp)).2)
      · exact hwf p (List.mem_cons_of_mem _ hmem)
    · rw [show insertHit cap h ex ((k, g) :: rest) = (k, g) :: insertHit cap h ex rest from
        by simp [insertHit, hk]] at hp
      rcases List.mem_cons.mp hp with rfl | hmem
      · exact hwf (k, g) (by simp)
      · exact groupsWF_insertHit cap E h ex hex rest
          (fun q hq => hwf q (List.mem_cons_of_mem _ hq)) p hmem

theorem foldl_insert_nodup (cap : Nat) :
    ∀ (hits : List Record) (gs : List (String × HostGroup)), (gs.map Prod.fst).Nodup →
    (((hits.foldl (fun gs t => insertHit cap (hostKeyOf t) (exampleOf t) gs) gs)).map
      Prod.fst).Nodup
  | [], _, hnd => hnd
  | t :: rest, gs, hnd => by
    rw [List.foldl_cons]
    exact foldl_insert_nodup cap rest _ (keys_insertHit_nodup cap (hostKeyOf t) (exampleOf t) gs hnd)

theorem foldl_insert_mem (cap : Nat) :
    ∀ (hits : List Record) (gs : List (String × HostGroup)) (x : String),
    (x ∈ ((hits.foldl (fun gs t => insertHit cap (hostKeyOf t) (exampleOf t) gs) gs)).map Prod.fst
      ↔ x ∈ gs.map Prod.fst ∨ x ∈ hits.map hostKeyOf)
  | [], gs, x => by simp
  | t :: rest, gs, x => by
    rw [List.foldl_cons, foldl_insert_mem cap rest _ x, mem_keys_insertHit]
    simp only [List.map_cons, List.mem_cons]
    tauto

theorem foldl_insert_sum (cap : Nat) :
    ∀ (hits : List Record) (gs : List (String × HostGroup)),
    (((hits.foldl (fun gs t => insertHit cap (hostKeyOf t) (exampleOf t) gs) gs)).map
        (fun p => p.2.count)).sum
      = ((gs.map (fun p => p.2.count)).sum) + hits.length
  | [], gs => by simp
  | t :: rest, gs => by
    rw [List.foldl_cons, foldl_insert_sum cap rest _, sum_insertHit]
    simp only [List.length_cons]
    omega

theorem foldl_insert_wf (cap : Nat) (E : List String) :
    ∀ (hits : List Record) (gs), (∀ t ∈ hits, exampleOf t ∈ E) → GroupsWF cap E gs →
      GroupsWF cap E (hits.foldl (fun gs t => insertHit cap (hostKeyOf t) (exampleOf t) gs) gs)
  | [], _, _, hwf => hwf
  | t :: rest, gs, hex, hwf => by
    rw [List.foldl_cons]
    exact foldl_insert_wf cap E rest _ (fun t' ht' => hex t' (by simp [ht']))
      (groupsWF_insertHit cap E (hostKeyOf t) (exampleOf t) (hex t (by simp)) gs hwf)

theorem mem_insertDesc (p x : String × HostGroup) :
    ∀ l, x ∈ insertDesc p l ↔ x = p ∨ x ∈ l
  | [] => by simp [insertDesc]
  | q :: rest => by
    unfold insertDesc
    by_cases hc : p.2.count ≤ q.2.count
    · rw [if_pos hc]
      simp only [List.mem_cons, mem_insertDesc p x rest]
      tauto
    · rw [if_neg hc]
      simp only [List.mem_cons]

theorem sorted_insertDesc (p : String × HostGroup) :
    ∀ l, List.Sorted (fun a b : String × HostGroup => b.2.count ≤ a.2.count) l →
      List.Sorted (fun a b : String × HostGroup => b.2.count ≤ a.2.count) (insertDesc p l)
  | [], _ => by simp [insertDesc]
  | q :: rest, hs => by
    have hs1 := (List.sorted_cons.mp hs).1
    have hs2 := (List.sorted_cons.mp hs).2
    unfold insertDesc
    by_cases hc : p.2.count ≤ q.2.count
    · rw [if_pos hc, List.sorted_cons]
      constructor
      · intro b hb
        rcases (mem_insertDesc p b rest).mp hb with rfl | hmem
        · exact hc
        · exact hs1 b hmem
      · exact sorted_insertDesc p rest hs2
    · rw [if_neg hc, List.sorted_cons]
      constructor
      · intro b hb
        rcases List.mem_cons.mp hb with rfl | hmem
        · omega
        · have := hs1 b hmem
          omega
      · exact hs
  termination_by l => l.length

theorem sortDesc_sorted_aux :
    ∀ (l : List (String × HostGroup)) (acc),
    List.Sorted (fun a b : String × HostGroup => b.2.count ≤ a.2.count) acc →
    List.Sorted (fun a b : String × HostGroup => b.2.count ≤ a.2.count)
      (l.foldl (fun acc p => insertDesc p acc) acc)
  | [], _, h => h
  | p :: rest, acc, h => by
    rw [List.foldl_cons]
    exact sortDesc_sorted_aux rest _ (sorted_insertDesc p acc h)

theorem length_insertDesc (p : String × HostGroup) :
    ∀ l, (insertDesc p l).length = l.length + 1
  | [] => rfl
  | q :: rest => by
    unfold insertDesc
    by_cases hc : p.2.count ≤ q.2.count
    · rw [if_pos hc]
      simp [length_insertDesc p rest]
    · rw [if_neg hc]
      simp

theorem length_sortDesc_aux :
    ∀ (l : List (String × HostGroup)) (acc),
    (l.foldl (fun acc p => insertDesc p acc) acc).length = acc.length + l.length
  | [], acc => by simp
  | p :: rest, acc => by
    rw [List.foldl_cons, length_sortDesc_aux rest _, length_insertDesc]
    simp only [List.length_cons]
    omega

theorem length_sortDesc (l : List (String × HostGroup)) : (sortDesc l).length = l.length := by
  unfold sortDesc
  rw [length_sortDesc_aux l []]
  simp

/-- Three hits on host `a` for the C5 example. -/
def exRecA : Record := ⟨some "a", some "/x", none, some "get", none, none⟩

/-- Seven hits on host `b` for the C5 example. -/
def exRecB : Record := ⟨some "b", some "/y", none, some "post", none, none⟩

/-- The C5 example hit list: hosts `{a: 3, b: 7}`. -/
def exHits : List Record := List.replicate 3 exRecA ++ List.replicate 7 exRecB

/-- C5. The compact report groups hits by normalized host (distinct keys,
exactly the normalized hosts of the hits), reports total hits (the hit
count) and the unique-host count in its header, lists the groups sorted
descending by count, shows at most `maxHosts` of them, appends the
`…and N more hosts.` line exactly when groups were truncated, and each
group carries at most `cap` non-empty example strings drawn from the hits'
`METHOD PATH` strings; on hits `{a: 3, b: 7}` it lists `b` before `a` with
total 10 and 2 unique hosts. -/
theorem c5_compact_report :
    (∀ (cap maxHosts : Nat) (title url : String) (hits : List Record),
      ((summarize_hits_by_host cap hits).map Prod.fst).Nodup
      ∧ (∀ x, x ∈ (summarize_hits_by_host cap hits).map Prod.fst ↔ x ∈ hits.map hostKeyOf)
      ∧ ((summarize_hits_by_host cap hits).map (fun p => p.2.count)).sum = hits.length
      ∧ (format_compact_lines maxHosts cap title url hits).get? 1
          = some ("*" ++ title ++ ":* " ++ toString hits.length ++ " new hits / "
              ++ toString (summarize_hits_by_host cap hits).length ++ " hosts\n" ++ url)
      ∧ List.Sorted (fun a b : String × HostGroup => b.2.count ≤ a.2.count)
          (sortDesc (summarize_hits_by_host cap hits))
      ∧ (format_compact_lines maxHosts cap title url hits).length
          = 2 + min maxHosts (summarize_hits_by_host cap hits).length
            + (if maxHosts < (summarize_hits_by_host cap hits).length then 1 else 0)
      ∧ (maxHosts < (summarize_hits_by_host cap hits).length →
          (format_compact_lines maxHosts cap title url hits).getLast?
            = some ("…and " ++ toString ((summarize_hits_by_host cap hits).length - maxHosts)
                ++ " more hosts."))
      ∧ (∀ p ∈ summarize_hits_by_host cap hits,
          p.2.examples.length ≤ cap ∧ ∀ e ∈ p.2.examples, e ≠ "" ∧ e ∈ hits.map exampleOf))
    ∧ (sortDesc (summarize_hits_by_host 2 exHits)).map Prod.fst = ["b", "a"]
    ∧ exHits.length = 10
    ∧ ((summarize_hits_by_host 2 exHits).map (fun p => p.2.count)).sum = 10
    ∧ (summarize_hits_by_host 2 exHits).length = 2 := by
  refine ⟨?_, by decide, by decide, by decide, by decide⟩
  intro cap maxHosts title url hits
  have hsum : ((summarize_hits_by_host cap hits).map (fun p => p.2.count)).sum = hits.length := by
    unfold summarize_hits_by_host
    rw [foldl_insert_sum cap hits []]
    simp
  refine ⟨?_, ?_, hsum, ?_, ?_, ?_, ?_, ?_⟩
  · exact foldl_insert_nodup cap hits [] (by simp)
  · intro x
    have := foldl_insert_mem cap hits [] x
    simpa using this
  · simp only [format_compact_lines]
    rw [hsum]
    rfl
  · unfold sortDesc
    exact sortDesc_sorted_aux (summarize_hits_by_host cap hits) [] List.sorted_nil
  · simp only [format_compact_lines, List.length_append, List.length_map, List.length_take,
      length_sortDesc, List.length_cons, List.length_nil, apply_ite List.length,
      List.length_singleton]
    rw [if_congr (show min maxHosts (summarize_hits_by_host cap hits).length
        < (summarize_hits_by_host cap hits).length ↔
        maxHosts < (summarize_hits_by_host cap hits).length by omega) rfl rfl]
  · intro htrunc
    simp only [format_compact_lines, List.length_take, length_sortDesc]
    rw [Nat.min_eq_left (Nat.le_of_lt htrunc), if_pos htrunc, List.getLast?_concat]
  · exact foldl_insert_wf cap (hits.map exampleOf) hits []
      (fun t ht => List.mem_map_of_mem exampleOf ht)
      (fun p hp => absurd hp (List.not_mem_nil p))

end TargetWatcher
